import Mathlib

/-!
Verification of the conversation-persistence and translation-synchronization
core of the AeroSense weather chat assistant.

The Lean definitions below are a shallow embedding of the TypeScript source:

* `src/lib/chatStorage.ts` — record codec (`loadChatsFromStorage`), the save
  path (`autoSaveChat`), `deleteChat`, `renameChat`, title/snippet derivation;
* `src/lib/api.ts` — `batchTranslate` response handling;
* the main page component — `MessageItem.ensureTranslation` (on-demand
  translation with the shared in-flight set and concurrency counter) and the
  language-change batch-translation effect, plus `getMessageText`.

JavaScript values read back from `localStorage` are modelled by the JSON tree
`JVal` (the output of `JSON.parse`; object key lists are duplicate-free, as JS
objects are).  Numbers are modelled as integers — every number this core
manipulates structurally is one.  `Date` values are modelled by `DateV`
(a definite millisecond instant, or the Invalid Date produced by parsing a
garbage string); the runtime's mutually inverse `Date.prototype.toISOString` /
`new Date(isoString)` pair is modelled by the decimal codec `encMs`/`parseMs`,
which is likewise unambiguous and proved mutually inverse below.

The asynchronous translation scheduler runs on JavaScript's single-threaded
cooperative model: code between two `await`s executes atomically.  Its
transition systems below have exactly the suspension points of the source
(the outbound call itself, and the 150 ms poll of the concurrency limiter).
-/

namespace AeroSense

/-- A JSON value, the result of `JSON.parse` on stored data. -/
inductive JVal where
  | null
  | bool (b : Bool)
  | num (n : Int)
  | str (s : String)
  | arr (elems : List JVal)
  | obj (fields : List (String × JVal))

mutual

/-- JavaScript `String(v)` coercion (as applied by `String(m.id ?? '')` in the
decoder and by `parsed.map(String)` in `batchTranslate`). -/
def jsToString : JVal → String
  | .null => "null"
  | .bool b => if b then "true" else "false"
  | .num n => toString n
  | .str s => s
  | .obj _ => "[object Object]"
  | .arr xs => String.intercalate "," (jsArrElemStrings xs)

/-- Elements of an array under `String(...)` (i.e. `Array.prototype.join`):
`null` elements print as the empty string. -/
def jsArrElemStrings : List JVal → List String
  | [] => []
  | .null :: rest => "" :: jsArrElemStrings rest
  | v :: rest => jsToString v :: jsArrElemStrings rest

end

/-- Lookup of a property in a parsed JS object (keys are unique, so the first
binding is the binding). -/
def jsObjLookup (fields : List (String × JVal)) (k : String) : Option JVal :=
  (fields.find? fun p => decide (p.1 = k)).map (·.2)

/-- Property access `v[k]` on a non-`null` value: reading a named property of
a primitive or an array yields `undefined` (`none`); reading from an object
looks the key up.  (Property access on `null` throws a `TypeError`; the
decoders below surface that as their `.error` branch.) -/
def jsGetD : JVal → String → Option JVal
  | .obj fs, k => jsObjLookup fs k
  | _, _ => none

/-! ## In-memory messages and the translation cache

`ChatMessage` as held in React state: `id`, `type`, `original` and the
per-language `translations` map (`translations?: Record<string, string>`).
The remaining fields (`timestamp`, `weatherData`, `sources`) play no role in
the translation layer and are carried only by the storage-level model below. -/

inductive MsgType where
  | user
  | assistant
  | system
deriving Repr, DecidableEq

structure Msg where
  id : String
  type : MsgType
  original : String
  translations : Option (List (String × String))
deriving Repr, DecidableEq

/-- Lookup in a `Record<string, string>` (keys unique, first binding wins). -/
def kvLookup : List (String × String) → String → Option String
  | [], _ => none
  | (k', v) :: rest, k => if k' = k then some v else kvLookup rest k

/-- The object spread `{ ...m, [k]: v }`: an existing binding for `k` is
replaced in place, otherwise `k` is appended as the last key. -/
def kvInsert (m : List (String × String)) (k v : String) : List (String × String) :=
  if m.any (fun p => decide (p.1 = k)) then
    m.map fun p => if p.1 = k then (k, v) else p
  else
    m ++ [(k, v)]

/-- Removal of a binding; used to model storing the value `undefined` under a
key (which every read in this program treats exactly like an absent key). -/
def kvErase (m : List (String × String)) (k : String) : List (String × String) :=
  m.filter fun p => decide (p.1 ≠ k)

/-- `m.translations?.[language]` — the cached translation of `m` for a
language, if any. -/
def trLookup (m : Msg) (language : String) : Option String :=
  match m.translations with
  | some t => kvLookup t language
  | none => none

/-- `getMessageText` (main page component): the display resolver
`m.translations?.[language] ?? m.original ?? ''`.  (`original` is a string on
every constructed message, so the final `?? ''` never fires.) -/
def getMessageText (m : Msg) (language : String) : String :=
  match trLookup m language with
  | some t => t
  | none => m.original

/-- The completion handler of the on-demand path (`ensureTranslation`):
`setMessages(prev => prev.map(m => m.id === message.id ?
{ ...m, translations: { ...(m.translations || {}), [language]: translated } } : m))`. -/
def applyOnDemandResult (msgs : List Msg) (msgId language translated : String) :
    List Msg :=
  msgs.map fun m =>
    if m.id = msgId then
      { m with translations := some (kvInsert (m.translations.getD []) language translated) }
    else m

/-- JavaScript `Array.prototype.findIndex`, paired with the found element. -/
def jsFindIndexEntry (p : α → Bool) : List α → Option (Nat × α)
  | [] => none
  | x :: xs =>
    if p x then some (0, x)
    else (jsFindIndexEntry p xs).map fun e => (e.1 + 1, e.2)

/-- `Array.prototype.findIndex` (just the index). -/
def jsFindIndex (p : α → Bool) (l : List α) : Option Nat :=
  (jsFindIndexEntry p l).map (·.1)

/-- The completion handler of the batch path (language-change effect):
`setMessages(prev => prev.map(m => { const idx = batch.findIndex(b => b.id === m.id);
if (idx !== -1) return { ...m, translations: { ...(m.translations || {}), [language]: results[idx] } };
return m; }))`.  When `results` is shorter than `batch`, `results[idx]` is
`undefined`, which every later read treats as an absent binding. -/
def applyBatchResult (msgs : List Msg) (batch : List Msg) (results : List String)
    (language : String) : List Msg :=
  msgs.map fun m =>
    match jsFindIndex (fun b => decide (b.id = m.id)) batch with
    | some idx =>
      match results[idx]? with
      | some r =>
        { m with translations := some (kvInsert (m.translations.getD []) language r) }
      | none =>
        { m with translations := some (kvErase (m.translations.getD []) language) }
    | none => m

/-! ## The on-demand translation scheduler

`MessageItem.ensureTranslation` with the shared refs `translatingRef`
(in-flight message-id set) and `translatingCountRef` (outstanding-call
counter).  The source, with its suspension points marked:

```
if (!message.original) return;
if (message.translations && message.translations[language]) return;
if (translatingRef.current.has(message.id)) return;
while (translatingCountRef.current >= MAX_CONCURRENT_TRANSLATIONS) {
  await sleep(150);                                    // suspension point 1
}
translatingCountRef.current++;
translatingRef.current.add(message.id);
const translated = await translateText(...);           // suspension point 2
... finally { translatingCountRef.current--; translatingRef.current.delete(id); }
```

Everything between two suspension points runs atomically (single-threaded
cooperative scheduling).  In particular the final limiter check, the
increment and the issuing of the outbound call form one atomic segment. -/

def MAX_CONCURRENT_TRANSLATIONS : Nat := 3

/-- Global scheduler state for `n` distinct messages all needing translation:
callers are symmetric, so only how many are in each phase matters.
`translatingCount` is `translatingCountRef.current`; since it is incremented
in the same atomic segment that issues the outbound call and decremented when
the call completes, it equals the number of simultaneously pending outbound
translation calls. -/
structure SchedState where
  /-- callers past the entry guards, polling in the limiter loop (or about to
  enter it), not yet holding a slot -/
  waiting : Nat
  /-- `translatingCountRef.current` = number of pending outbound calls -/
  translatingCount : Nat
  /-- callers whose call has completed (the `finally` block has run) -/
  finished : Nat
deriving Repr, DecidableEq

/-- One atomic segment of the scheduler. -/
inductive SchedStep : SchedState → SchedState → Prop
  /-- A waiting caller observes `translatingCount < MAX_CONCURRENT_TRANSLATIONS`,
  leaves the limiter loop, increments the counter and issues its call —
  all without an intervening suspension point. -/
  | acquire (w c f : Nat) (h : c < MAX_CONCURRENT_TRANSLATIONS) :
      SchedStep ⟨w + 1, c, f⟩ ⟨w, c + 1, f⟩
  /-- A pending outbound call completes; its `finally` block decrements the
  counter. -/
  | finish (w c f : Nat) :
      SchedStep ⟨w, c + 1, f⟩ ⟨w, c, f + 1⟩

/-- Reflexive-transitive closure of `SchedStep`. -/
inductive SchedReachable : SchedState → SchedState → Prop
  | refl (s : SchedState) : SchedReachable s s
  | tail {s t u : SchedState} :
      SchedReachable s t → SchedStep t u → SchedReachable s u

/-! ## Two on-demand invocations for one `(message, language)` pair

A focused model of `ensureTranslation` for a single fixed pair, embedded in an
arbitrary ambient scheduler state.  A caller that passes the entry guards
either atomically acquires a slot (marking the id in-flight and issuing the
call) or — when the limiter is saturated — parks in the polling loop *without
having marked the id in-flight* (the mark happens only after the loop). -/

structure PairState where
  /-- `message.original` -/
  original : String
  /-- `message.translations?.[language]` -/
  entry : Option String
  /-- `translatingRef.current.has(message.id)` -/
  inflight : Bool
  /-- `translatingCountRef.current` (includes calls for other messages) -/
  translatingCount : Nat
  /-- callers for this pair parked inside the limiter polling loop -/
  parked : Nat
  /-- outbound calls issued so far for this pair -/
  issued : Nat
deriving Repr, DecidableEq

/-- The synchronous prefix of one `ensureTranslation()` invocation for the
pair: entry guards, then either atomic slot acquisition or parking. -/
def ensureTranslationInvoke (s : PairState) : PairState :=
  if s.original = "" then s
  else if (match s.entry with | some t => decide (t ≠ "") | none => false) = true then s
  else if s.inflight then s
  else if s.translatingCount < MAX_CONCURRENT_TRANSLATIONS then
    { s with translatingCount := s.translatingCount + 1, inflight := true,
             issued := s.issued + 1 }
  else
    { s with parked := s.parked + 1 }

/-- A parked caller's poll observes a free slot: it leaves the loop (the entry
guards are *not* re-checked — they precede the loop), increments the counter,
marks the id in-flight and issues its call. -/
def resumeParkedCaller (s : PairState) : PairState :=
  if 0 < s.parked ∧ s.translatingCount < MAX_CONCURRENT_TRANSLATIONS then
    { s with parked := s.parked - 1, translatingCount := s.translatingCount + 1,
             inflight := true, issued := s.issued + 1 }
  else s

/-- A pending call for some *other* message completes, freeing a slot. -/
def otherCallFinish (s : PairState) : PairState :=
  { s with translatingCount := s.translatingCount - 1 }

/-! ## The batch translation flow (language-change effect) -/

/-- Which messages the language-change effect queues for batch translation:
`currentMessages.filter(m => m.original && (!m.translations ||
!m.translations[language]) && m.type !== 'user')`.  Note the truthiness test:
an empty-string cached translation counts as missing. -/
def needsTranslation (m : Msg) (language : String) : Bool :=
  decide (m.original ≠ "")
    && (match trLookup m language with | some t => decide (t = "") | none => true)
    && decide (m.type ≠ MsgType.user)

/-- The messages to translate, in message order. -/
def toTranslate (msgs : List Msg) (language : String) : List Msg :=
  msgs.filter fun m => needsTranslation m language

/-- Group size of the batch loop (`const BATCH = 8`). -/
def BATCH : Nat := 8

/-- The groups formed by `for (let i = 0; i < toTranslate.length; i += BATCH)
{ const batch = toTranslate.slice(i, i + BATCH); ... }` — fuel-driven so it
reduces in the kernel; `batchGroups` below supplies enough fuel and the
unfolding lemma `batchGroups_cons` recovers the loop equation. -/
def batchGroupsFuel (fuel : Nat) : List α → List (List α) :=
  match fuel with
  | 0 => fun _ => []
  | fuel + 1 => fun l =>
    match l with
    | [] => []
    | x :: xs => (x :: xs.take (BATCH - 1)) :: batchGroupsFuel fuel (xs.drop (BATCH - 1))

/-- The batch groups of the language-change effect. -/
def batchGroups (l : List α) : List (List α) := batchGroupsFuel l.length l

/-- Number of combined batch requests the effect issues (one per group,
sequentially). -/
def numBatchCalls (msgs : List Msg) (language : String) : Nat :=
  (batchGroups (toTranslate msgs language)).length

/-! ## `batchTranslate` response handling (`src/lib/api.ts`)

The network call and `JSON.parse` are collaborators; the handler below is the
response-processing control flow, taking the outcome of `JSON.parse(data.text)`
and — when that throws — the outcome of the regex extraction
`data.text.match(/\[([\s\S]*)\]/)` followed by `JSON.parse` of the match
(`none` when the regex does not match). -/

inductive JsonParseOutcome where
  | ok (v : JVal)
  | err

/-- `batchTranslate`: early-return `[]` on empty input (no request is issued);
a successfully parsed JSON array is mapped through `String`; a successful
parse that is not an array, a failed parse with no extractable array, all fall
back to returning the original input texts unchanged. -/
def batchTranslateHandle (texts : List String) (parsed : JsonParseOutcome)
    (extracted : Option JsonParseOutcome) : List String :=
  if texts.isEmpty then []
  else
    match parsed with
    | .ok (.arr xs) => xs.map jsToString
    | .ok _ => texts
    | .err =>
      match extracted with
      | some (.ok (.arr xs)) => xs.map jsToString
      | _ => texts

/-! ## Dates and their textual storage form

A JS `Date` is either a definite millisecond instant or the Invalid Date that
`new Date("garbage")` produces.  `JSON.stringify` serializes a valid date via
`toISOString` and an invalid one as `null`; `new Date(s)` recovers the instant
from the ISO string and yields Invalid Date on an unparsable one.  The
mutually inverse ISO codec is modelled by the decimal codec `encMs`/`parseMs`
(proved mutually inverse below), which shares its essential properties:
unambiguous, sortable, total on valid instants, rejecting garbage. -/

inductive DateV where
  /-- a definite instant, in milliseconds since the epoch -/
  | valid (ms : Nat)
  /-- Invalid Date (`NaN` time value) -/
  | invalid
deriving Repr, DecidableEq

/-- The decimal digit character for `d < 10`. -/
def digitChar (d : Nat) : Char := Char.ofNat (48 + d)

/-- Partial inverse of `digitChar`. -/
def charDigit (c : Char) : Option Nat :=
  if 48 ≤ c.toNat ∧ c.toNat ≤ 57 then some (c.toNat - 48) else none

/-- Little-endian decimal digits of `n`, fuel-driven so that it reduces in the
kernel (proved equal to `Nat.digits 10 n` below). -/
def toDigitsRev (fuel : Nat) (n : Nat) : List Nat :=
  match fuel with
  | 0 => []
  | fuel + 1 => if n = 0 then [] else n % 10 :: toDigitsRev fuel (n / 10)

/-- The textual storage form of a valid date (model of `toISOString`). -/
def encMs (ms : Nat) : String :=
  if ms = 0 then "0"
  else String.mk (((toDigitsRev ms ms).reverse).map digitChar)

/-- Recovering an instant from its textual form (model of `new Date(s)`);
`none` is Invalid Date. -/
def parseMs (s : String) : Option Nat :=
  match s.data.mapM charDigit with
  | some ds => if ds.isEmpty then none else some (Nat.ofDigits 10 ds.reverse)
  | none => none

/-! ## Storage-level data model (`src/lib/chatStorage.ts`)

`ChatMessage` and `ChatRecord` as the decoder actually produces them.  The
decoder *casts* rather than validates `translations`, `weatherData`,
`sources`, `meta` and `unsyncedOps`, so those fields carry raw JSON values:
`translations`/`weatherData` are any truthy value of `typeof 'object'`
(object or array), `sources`/`unsyncedOps` any array, `meta` any truthy
object-typed value (defaulting to `{ version: 1 }`). -/

structure SMessage where
  id : String
  type : MsgType
  original : String
  translations : Option JVal
  timestamp : DateV
  weatherData : Option JVal
  sources : Option (List JVal)

structure SRecord where
  id : String
  userId : Option String
  title : String
  snippet : String
  city : Option String
  messages : List SMessage
  meta : JVal
  createdAt : DateV
  updatedAt : DateV
  lastSyncedAt : Option DateV
  synced : Bool
  unsyncedOps : Option (List JVal)

/-- `String(x ?? '')`: `undefined`/`null` coalesce to `''`, anything else is
coerced by `String(...)`. -/
def jsStringCoalesce : Option JVal → String
  | none => ""
  | some .null => ""
  | some v => jsToString v

/-- `typeof v === 'string' ? v : <none>`. -/
def asString? : Option JVal → Option String
  | some (.str s) => some s
  | _ => none

/-- `typeof v === 'object' && v ? v : <none>` — a truthy value of JS type
`'object'`, i.e. an object or an array (`null` is `typeof 'object'` but
falsy). -/
def isObjTruthy : Option JVal → Option JVal
  | some (.obj fs) => some (.obj fs)
  | some (.arr xs) => some (.arr xs)
  | _ => none

/-- JS truthiness of a property value, for `!!c.synced`. -/
def jsTruthy : Option JVal → Bool
  | none => false
  | some .null => false
  | some (.bool b) => b
  | some (.num n) => decide (n ≠ 0)
  | some (.str s) => decide (s ≠ "")
  | some (.arr _) => true
  | some (.obj _) => true

/-- `typeof v === 'string' ? new Date(v) : new Date()`. -/
def decodeDateField (v : Option JVal) (now : Nat) : DateV :=
  match v with
  | some (.str s) =>
    match parseMs s with
    | some ms => .valid ms
    | none => .invalid
  | _ => .valid now

/-- `typeof v === 'string' ? new Date(v) : null` (for `lastSyncedAt`). -/
def decodeLastSynced (v : Option JVal) : Option DateV :=
  match v with
  | some (.str s) =>
    some (match parseMs s with | some ms => DateV.valid ms | none => DateV.invalid)
  | _ => none

/-- `(m.type === 'user' || m.type === 'assistant' || m.type === 'system') ?
m.type : 'system'`. -/
def decodeRole (v : Option JVal) : MsgType :=
  match v with
  | some (.str "user") => .user
  | some (.str "assistant") => .assistant
  | some (.str "system") => .system
  | _ => .system

/-- `Array.isArray(v) ? v : <none>`. -/
def asArray? : Option JVal → Option (List JVal)
  | some (.arr xs) => some xs
  | _ => none

/-- The default `meta` object `{ version: 1 }`. -/
def defaultMeta : JVal := .obj [("version", .num 1)]

/-- Per-message decoding (the inner `messagesRaw.map` callback of
`loadChatsFromStorage`).  The only failure point of the callback is property
access on a `null` entry, which throws a `TypeError` (the `.error` branch
here); every other entry decodes per-field with the safe defaults. -/
def decodeMessage (mRaw : JVal) (now : Nat) : Except Unit SMessage :=
  match mRaw with
  | .null => .error ()
  | _ => .ok {
      id := jsStringCoalesce (jsGetD mRaw "id")
      type := decodeRole (jsGetD mRaw "type")
      original := jsStringCoalesce (jsGetD mRaw "original")
      translations := isObjTruthy (jsGetD mRaw "translations")
      timestamp := decodeDateField (jsGetD mRaw "timestamp") now
      weatherData := isObjTruthy (jsGetD mRaw "weatherData")
      sources := asArray? (jsGetD mRaw "sources") }

/-- The raw `messages` array of a record entry
(`Array.isArray(c.messages) ? c.messages : []` on non-throwing entries). -/
def rawMessages (v : JVal) : List JVal :=
  (asArray? (jsGetD v "messages")).getD []

/-- The per-field coercions of one record entry (everything of the
`parsed.map` callback except the `messages` recursion). -/
def decodeRecordFields (chat : JVal) (now : Nat) (messages : List SMessage) :
    SRecord :=
  { id := jsStringCoalesce (jsGetD chat "id")
    userId := asString? (jsGetD chat "userId")
    title := jsStringCoalesce (jsGetD chat "title")
    snippet := jsStringCoalesce (jsGetD chat "snippet")
    city := asString? (jsGetD chat "city")
    messages := messages
    meta := (isObjTruthy (jsGetD chat "meta")).getD defaultMeta
    createdAt := decodeDateField (jsGetD chat "createdAt") now
    updatedAt := decodeDateField (jsGetD chat "updatedAt") now
    lastSyncedAt := decodeLastSynced (jsGetD chat "lastSyncedAt")
    synced := jsTruthy (jsGetD chat "synced")
    unsyncedOps := asArray? (jsGetD chat "unsyncedOps") }

/-- Per-record decoding (the `parsed.map` callback of `loadChatsFromStorage`).
A `null` entry throws on its first property access (`.error`); otherwise the
entry decodes per-field, failing only if mapping `decodeMessage` over its raw
`messages` array throws. -/
def decodeRecord (chat : JVal) (now : Nat) : Except Unit SRecord :=
  match chat with
  | .null => .error ()
  | _ =>
    match (rawMessages chat).mapM (fun m => decodeMessage m now) with
    | .error e => .error e
    | .ok messages => .ok (decodeRecordFields chat now messages)

/-- `loadChatsFromStorage`.  The argument is the outcome of
`localStorage.getItem` + `JSON.parse`: `none` when the slot is empty or the
stored text is not valid JSON (the parse error is caught), `some v` for the
parsed value.  A non-array value yields `[]`; a `TypeError` thrown while
mapping over the array is caught by the surrounding `try`, which logs and
returns `[]`. -/
def loadChatsFromStorage (raw : Option JVal) (now : Nat) : List SRecord :=
  match raw with
  | none => []
  | some v =>
    match v with
    | .arr items =>
      match items.mapM (fun chat => decodeRecord chat now) with
      | .ok recs => recs
      | .error _ => []
    | _ => []

/-! ## Encoding (what `JSON.parse(JSON.stringify(records))` yields)

`JSON.stringify` drops properties whose value is `undefined`, keeps `null`,
serializes a valid `Date` via `toISOString` and an invalid one as `null`. -/

/-- Storage form of a date field. -/
def encodeDate : DateV → JVal
  | .valid ms => .str (encMs ms)
  | .invalid => .null

/-- The wire string of a message role. -/
def roleString : MsgType → String
  | .user => "user"
  | .assistant => "assistant"
  | .system => "system"

/-- An optional property: present with its value, or dropped
(`undefined`). -/
def optField (k : String) : Option JVal → List (String × JVal)
  | some j => [(k, j)]
  | none => []

/-- JSON tree of a stored message. -/
def encodeMessage (m : SMessage) : JVal :=
  .obj ([("id", .str m.id), ("type", .str (roleString m.type)),
         ("original", .str m.original)]
    ++ optField "translations" m.translations
    ++ [("timestamp", encodeDate m.timestamp)]
    ++ optField "weatherData" m.weatherData
    ++ optField "sources" (m.sources.map JVal.arr))

/-- JSON tree of a stored conversation record. -/
def encodeRecord (c : SRecord) : JVal :=
  .obj ([("id", .str c.id),
         ("userId", match c.userId with | some s => .str s | none => .null),
         ("title", .str c.title),
         ("snippet", .str c.snippet),
         ("city", match c.city with | some s => .str s | none => .null),
         ("messages", .arr (c.messages.map encodeMessage)),
         ("meta", c.meta),
         ("createdAt", encodeDate c.createdAt),
         ("updatedAt", encodeDate c.updatedAt),
         ("lastSyncedAt", match c.lastSyncedAt with
                          | some d => encodeDate d
                          | none => .null),
         ("synced", .bool c.synced)]
    ++ optField "unsyncedOps" (c.unsyncedOps.map JVal.arr))

/-- JSON tree of the whole stored collection. -/
def encodeChats (cs : List SRecord) : JVal := .arr (cs.map encodeRecord)

/-! ## Serialized length (for the size policy)

`JSON.stringify(messages).length`; the textual form, used only for the
500 000-byte truncation check. -/

/-- Escaping of `"` and `\` inside a JSON string literal (the characters this
data can contain that `JSON.stringify` escapes). -/
def escapeJsonString (s : String) : String :=
  s.data.foldl
    (fun acc c =>
      if c == '"' then acc ++ "\\\""
      else if c == '\\' then acc ++ "\\\\"
      else acc.push c)
    ""

mutual

/-- The JSON text of a value, as `JSON.stringify` produces it. -/
def stringifyJVal : JVal → String
  | .null => "null"
  | .bool b => if b then "true" else "false"
  | .num n => toString n
  | .str s => "\"" ++ escapeJsonString s ++ "\""
  | .arr xs => "[" ++ String.intercalate "," (stringifyList xs) ++ "]"
  | .obj fs => "\x7b" ++ String.intercalate "," (stringifyFields fs) ++ "\x7d"

def stringifyList : List JVal → List String
  | [] => []
  | v :: rest => stringifyJVal v :: stringifyList rest

def stringifyFields : List (String × JVal) → List String
  | [] => []
  | (k, v) :: rest =>
    ("\"" ++ escapeJsonString k ++ "\":" ++ stringifyJVal v) :: stringifyFields rest

end

/-! ## Conversation store operations (`src/lib/chatStorage.ts`)

The operations below are the pure core of the store functions: the stored
collection is passed in (the result of `loadChatsFromStorage`) and the updated
collection is returned (what `localStorage.setItem` writes back).  `now` is
`Date.now()` / `new Date()` at the time of the call, `device` is
`navigator.userAgent`. -/

def MAX_MESSAGE_SIZE : Nat := 500000

/-- `getChatTitle`: first user message, cut to 50 characters. -/
def getChatTitle (messages : List SMessage) : String :=
  let userMsgs := messages.filter fun m => decide (m.type = MsgType.user)
  match userMsgs with
  | [] => "Untitled Chat"
  | first :: _ =>
    (first.original.take 50) ++ (if first.original.length > 50 then "..." else "")

/-- `getChatSnippet`: first assistant message, else first user message, cut to
70 characters. -/
def getChatSnippet (messages : List SMessage) : String :=
  let assistantMsg := messages.find? fun m => decide (m.type = MsgType.assistant)
  let userMsg := messages.find? fun m => decide (m.type = MsgType.user)
  match assistantMsg.or userMsg with
  | none => "Empty chat"
  | some source =>
    (source.original.take 70) ++ (if source.original.length > 70 then "..." else "")

/-- `m.weatherData && typeof (m.weatherData).city === 'string'`, yielding the
city; reading `.city` of an array or primitive yields `undefined`, which is
not a string. -/
def weatherCity (m : SMessage) : Option String :=
  match m.weatherData with
  | some (.obj fs) => asString? (jsObjLookup fs "city")
  | _ => none

/-- The `cityMatch` IIFE of `autoSaveChat`. -/
def findCityMatch (messages : List SMessage) : Option String :=
  match messages.find? fun m => (weatherCity m).isSome with
  | some m => weatherCity m
  | none => none

/-- `JSON.stringify(messages).length`. -/
def messagesSerializedLength (messages : List SMessage) : Nat :=
  (stringifyJVal (.arr (messages.map encodeMessage))).length

/-- `autoSaveChat` (pure core).  No user message ⇒ the stored collection is
returned unchanged.  Otherwise the computed title is looked up; on a hit the
record at that index is replaced (preserving `id`/`createdAt`), on a miss a
new record is prepended. -/
def autoSaveChat (now : Nat) (device : String) (messages : List SMessage)
    (chats : List SRecord) : List SRecord :=
  let userMessages := messages.filter fun m => decide (m.type = MsgType.user)
  if userMessages.isEmpty then chats
  else
    let chatTitle := getChatTitle messages
    let chatSnippet := getChatSnippet messages
    let cityMatch := findCityMatch messages
    let existing := jsFindIndexEntry (fun c => decide (c.title = chatTitle)) chats
    let messageSize := messagesSerializedLength messages
    let isTruncated := decide (messageSize > MAX_MESSAGE_SIZE)
    let meta : JVal := .obj [("device", .str (device.take 50)), ("version", .num 1),
                            ("truncated", .bool isTruncated)]
    match existing with
    | some (i, old) =>
      chats.set i
        { id := old.id
          userId := none
          title := chatTitle
          snippet := chatSnippet
          city := cityMatch
          messages := messages
          meta := meta
          createdAt := old.createdAt
          updatedAt := .valid now
          lastSyncedAt := none
          synced := false
          unsyncedOps := none }
    | none =>
      { id := "local_" ++ encMs now
        userId := none
        title := chatTitle
        snippet := chatSnippet
        city := cityMatch
        messages := messages
        meta := meta
        createdAt := .valid now
        updatedAt := .valid now
        lastSyncedAt := none
        synced := false
        unsyncedOps := none } :: chats

/-- `deleteChat` (pure core): `chats.filter(c => c.id !== chatId)`. -/
def deleteChat (chatId : String) (chats : List SRecord) : List SRecord :=
  chats.filter fun c => decide (c.id ≠ chatId)

/-- `renameChat` (pure core): the collection written back.  When the id is not
found the function returns `null` without writing, so the collection is
unchanged. -/
def renameChatList (chats : List SRecord) (chatId newTitle : String) (now : Nat) :
    List SRecord :=
  match jsFindIndexEntry (fun c => decide (c.id = chatId)) chats with
  | none => chats
  | some (i, old) => chats.set i { old with title := newTitle, updatedAt := .valid now }

/-- `renameChat`'s return value (`ChatRecord | null`). -/
def renameChat (chats : List SRecord) (chatId newTitle : String) (now : Nat) :
    Option SRecord :=
  match jsFindIndexEntry (fun c => decide (c.id = chatId)) chats with
  | none => none
  | some (_, old) => some { old with title := newTitle, updatedAt := .valid now }

/-! ## Well-formedness predicates used by the round-trip and safety claims -/

/-- A value of JS type `'object'` and truthy: an object or an array. -/
def IsObjLike : JVal → Prop
  | .obj _ => True
  | .arr _ => True
  | _ => False

instance : DecidablePred IsObjLike := fun j => by
  cases j <;> simp only [IsObjLike] <;> infer_instance

/-- The invariants every `decodeMessage` output satisfies. -/
def SMessageWF (m : SMessage) : Prop :=
  (∀ j ∈ m.translations, IsObjLike j) ∧ (∀ j ∈ m.weatherData, IsObjLike j)

/-- The invariants every `decodeRecord` output satisfies. -/
def SRecordWF (c : SRecord) : Prop :=
  IsObjLike c.meta ∧ ∀ m ∈ c.messages, SMessageWF m

/-- All date fields of a message are definite instants. -/
def SMessageDatesValid (m : SMessage) : Prop := m.timestamp ≠ .invalid

/-- All date fields of a record are definite instants (or absent). -/
def SRecordDatesValid (c : SRecord) : Prop :=
  c.createdAt ≠ .invalid ∧ c.updatedAt ≠ .invalid ∧
    c.lastSyncedAt ≠ some .invalid ∧ ∀ m ∈ c.messages, SMessageDatesValid m

/-- A raw array entry whose decoding does not throw: it is not `null`, and no
entry of its `messages` array is `null`. -/
def SafeChatRaw (v : JVal) : Prop :=
  v ≠ .null ∧ ∀ m ∈ rawMessages v, m ≠ .null

/-! # Helper lemmas -/

/-! ## The date codec is mutually inverse on valid instants -/

theorem toDigitsRev_eq_digits (fuel n : Nat) (h : n ≤ fuel) :
    toDigitsRev fuel n = Nat.digits 10 n := by
  induction fuel generalizing n with
  | zero =>
    interval_cases n
    simp [toDigitsRev]
  | succ fuel ih =>
    unfold toDigitsRev
    by_cases h0 : n = 0
    · simp [h0]
    · rw [if_neg h0]
      rw [Nat.digits_def' (by norm_num) (Nat.pos_of_ne_zero h0)]
      rw [ih _ (by omega)]

theorem charDigit_digitChar {d : Nat} (h : d < 10) :
    charDigit (digitChar d) = some d := by
  interval_cases d <;> decide

theorem mapM_charDigit_map_digitChar (l : List Nat) (h : ∀ d ∈ l, d < 10) :
    (l.map digitChar).mapM charDigit = some l := by
  induction l with
  | nil => rfl
  | cons a as ih =>
    simp only [List.map_cons, List.mapM_cons]
    rw [charDigit_digitChar (h a (by simp))]
    rw [ih (fun d hd => h d (by simp [hd]))]
    rfl

/-- The storage codec for dates is lossless on valid instants (model of
`new Date(d.toISOString()).getTime() === d.getTime()`). -/
theorem parseMs_encMs (ms : Nat) : parseMs (encMs ms) = some ms := by
  by_cases h0 : ms = 0
  · subst h0; decide
  · unfold encMs parseMs
    rw [if_neg h0, toDigitsRev_eq_digits ms ms le_rfl]
    have hl : ∀ d ∈ (Nat.digits 10 ms).reverse, d < 10 := by
      intro d hd
      exact Nat.digits_lt_base (by norm_num) (List.mem_reverse.mp hd)
    rw [show (String.mk (((Nat.digits 10 ms).reverse).map digitChar)).data
          = ((Nat.digits 10 ms).reverse).map digitChar from rfl]
    rw [mapM_charDigit_map_digitChar _ hl]
    have hne : ¬((Nat.digits 10 ms).reverse.isEmpty = true) := by
      simp [Nat.digits_ne_nil_iff_ne_zero.mpr h0]
    dsimp only
    rw [if_neg hne, List.reverse_reverse, Nat.ofDigits_digits]

/-! ## Lookup after the object-spread write `{ ...t, [k]: v }` -/

theorem kvLookup_map_replace {k v : String} :
    ∀ m : List (String × String), m.any (fun p => decide (p.1 = k)) = true →
      kvLookup (m.map fun p => if p.1 = k then (k, v) else p) k = some v := by
  intro m
  induction m with
  | nil => simp
  | cons a as ih =>
    intro h
    rw [List.map_cons]
    by_cases ha : a.1 = k
    · rw [if_pos ha]
      simp [kvLookup]
    · simp only [List.any_cons, Bool.or_eq_true, decide_eq_true_eq, ha, false_or] at h
      rw [if_neg ha]
      show (if a.1 = k then some a.2 else _) = some v
      rw [if_neg ha, ih h]

theorem kvLookup_append_right {k : String} :
    ∀ m l : List (String × String), m.any (fun p => decide (p.1 = k)) = false →
      kvLookup (m ++ l) k = kvLookup l k := by
  intro m
  induction m with
  | nil => simp
  | cons a as ih =>
    intro l h
    simp only [List.any_cons, Bool.or_eq_false_iff, decide_eq_false_iff_not] at h
    rw [List.cons_append]
    show (if a.1 = k then some a.2 else kvLookup (as ++ l) k) = kvLookup l k
    rw [if_neg h.1, ih l (by simpa using h.2)]

/-- After `{ ...t, [k]: v }`, reading `k` yields `v` — also when `k` was
already bound (the write overwrites). -/
theorem kvLookup_kvInsert_self (m : List (String × String)) (k v : String) :
    kvLookup (kvInsert m k v) k = some v := by
  unfold kvInsert
  by_cases h : m.any (fun p => decide (p.1 = k)) = true
  · rw [if_pos h]
    exact kvLookup_map_replace m h
  · rw [if_neg h, kvLookup_append_right m _ (by simp only [Bool.not_eq_true] at h; exact h)]
    simp [kvLookup]

theorem kvLookup_map_replace_ne {k v k₂ : String} (h : k₂ ≠ k) :
    ∀ m : List (String × String),
      kvLookup (m.map fun p => if p.1 = k then (k, v) else p) k₂ = kvLookup m k₂ := by
  intro m
  induction m with
  | nil => rfl
  | cons a as ih =>
    rw [List.map_cons]
    by_cases ha : a.1 = k
    · rw [if_pos ha]
      show (if k = k₂ then some v else _) = _
      rw [if_neg (Ne.symm h), kvLookup]
      rw [if_neg (ha ▸ Ne.symm h : ¬a.1 = k₂), ih]
    · rw [if_neg ha]
      show (if a.1 = k₂ then some a.2 else _) = _
      rw [kvLookup]
      by_cases hak2 : a.1 = k₂
      · rw [if_pos hak2, if_pos hak2]
      · rw [if_neg hak2, if_neg hak2, ih]

theorem kvLookup_append_single_ne {k v k₂ : String} (h : k₂ ≠ k) :
    ∀ m : List (String × String),
      kvLookup (m ++ [(k, v)]) k₂ = kvLookup m k₂ := by
  intro m
  induction m with
  | nil =>
    show (if k = k₂ then some v else none) = none
    rw [if_neg (Ne.symm h)]
  | cons a as ih =>
    rw [List.cons_append]
    show (if a.1 = k₂ then some a.2 else kvLookup (as ++ [(k, v)]) k₂) = _
    rw [kvLookup]
    by_cases hak2 : a.1 = k₂
    · rw [if_pos hak2, if_pos hak2]
    · rw [if_neg hak2, if_neg hak2, ih]

/-- After `{ ...t, [k]: v }`, every other key reads as before. -/
theorem kvLookup_kvInsert_ne (m : List (String × String)) (k v k₂ : String)
    (h : k₂ ≠ k) : kvLookup (kvInsert m k v) k₂ = kvLookup m k₂ := by
  unfold kvInsert
  by_cases hany : m.any (fun p => decide (p.1 = k)) = true
  · rw [if_pos hany, kvLookup_map_replace_ne h]
  · rw [if_neg hany, kvLookup_append_single_ne h]

/-- A key stored with value `undefined` reads as absent. -/
theorem kvLookup_kvErase_self (m : List (String × String)) (k : String) :
    kvLookup (kvErase m k) k = none := by
  induction m with
  | nil => rfl
  | cons a as ih =>
    unfold kvErase at ih ⊢
    by_cases ha : a.1 = k
    · simpa [List.filter_cons, ha] using ih
    · simpa [List.filter_cons, ha, kvLookup] using ih

/-! # Claims C1 - C4: the translation cache and scheduler -/

/-- Claim C1 is false on the code: the completion handlers write the cache
entry unconditionally, so a populated entry IS overwritten by a later
completion for the same pair.  Concretely, for message `m1` with no `ja-JP`
translation, a fast on-demand completion populates the entry with `"fast"`;
a slower, already-in-flight batch result for the same pair then completes and
the entry reads `"slow"` — the first successful writer did not win. -/
theorem claim_C1_counterexample :
    ((applyOnDemandResult [Msg.mk "m1" .assistant "hello" none] "m1" "ja-JP" "fast").map
        fun m => trLookup m "ja-JP") = [some "fast"]
    ∧ ((applyBatchResult
          (applyOnDemandResult [Msg.mk "m1" .assistant "hello" none] "m1" "ja-JP" "fast")
          [Msg.mk "m1" .assistant "hello" none] ["slow"] "ja-JP").map
        fun m => trLookup m "ja-JP") = [some "slow"] := by decide

/-- Claim C1, amended: a completion for `(message, language)` merges its own
result into the cache entry unconditionally — the last completion to apply
wins, and an already-populated entry is overwritten.  The two equations
characterize the cache after an on-demand completion and after a batch
completion: every message matching the completed id reads the completing
value (for the batch path, the value at the message's position in the batch,
or an absent entry when the results array is too short), and every other
message reads exactly as before. -/
theorem claim_C1_amended (msgs : List Msg) (msgId language translated : String)
    (batch : List Msg) (results : List String) :
    ((applyOnDemandResult msgs msgId language translated).map
        fun m => trLookup m language)
      = (msgs.map fun m => if m.id = msgId then some translated else trLookup m language)
    ∧ ((applyBatchResult msgs batch results language).map
        fun m => trLookup m language)
      = (msgs.map fun m =>
          match jsFindIndex (fun b => decide (b.id = m.id)) batch with
          | some idx => results[idx]?
          | none => trLookup m language) := by
  constructor
  · unfold applyOnDemandResult
    rw [List.map_map]
    apply List.map_congr_left
    intro m _
    by_cases h : m.id = msgId
    · simp only [Function.comp_apply, if_pos h]
      show trLookup { m with translations := _ } language = _
      unfold trLookup
      exact kvLookup_kvInsert_self _ _ _
    · simp only [Function.comp_apply, if_neg h]
  · unfold applyBatchResult
    rw [List.map_map]
    apply List.map_congr_left
    intro m _
    simp only [Function.comp_apply]
    cases hidx : jsFindIndex (fun b => decide (b.id = m.id)) batch with
    | none => rfl
    | some idx =>
      cases hres : results[idx]? with
      | some r =>
        dsimp only
        rw [hres]
        dsimp only
        simp only [trLookup]
        exact kvLookup_kvInsert_self _ _ _
      | none =>
        dsimp only
        rw [hres]
        dsimp only
        simp only [trLookup]
        exact kvLookup_kvErase_self _ _

/-- Claim C2: in every state reachable from `n` distinct messages all needing
translation (in particular `n = 10`), the number of simultaneously pending
outbound translation calls — the value of `translatingCountRef.current`,
incremented in the same atomic segment that issues a call and decremented on
its completion — never exceeds `MAX_CONCURRENT_TRANSLATIONS = 3`. -/
theorem claim_C2 (n : Nat) (s : SchedState) (h : SchedReachable ⟨n, 0, 0⟩ s) :
    s.translatingCount ≤ MAX_CONCURRENT_TRANSLATIONS := by
  induction h with
  | refl => exact Nat.zero_le _
  | tail hr hs ih =>
    cases hs with
    | acquire w c f hc => exact hc
    | finish w c f =>
      simp only [SchedState.translatingCount] at ih ⊢
      omega

/-- Witness for C2: with 10 messages, the state with three pending calls and
seven still waiting is reachable, and the bound holds there. -/
theorem claim_C2_witness :
    SchedReachable ⟨10, 0, 0⟩ ⟨7, 3, 0⟩ ∧
      (SchedState.mk 7 3 0).translatingCount ≤ MAX_CONCURRENT_TRANSLATIONS := by
  have h : SchedReachable ⟨10, 0, 0⟩ ⟨7, 3, 0⟩ :=
    .tail (.tail (.tail (.refl _)
      (.acquire 9 0 0 (by decide)))
      (.acquire 8 1 0 (by decide)))
      (.acquire 7 2 0 (by decide))
  exact ⟨h, claim_C2 10 _ h⟩

/-- Claim C3 is false on the code: when the concurrency limiter is saturated
(three calls for other messages pending, `translatingCount = 3`), a caller
parks in the polling loop BEFORE adding the message id to `translatingRef`,
so a second immediate invocation for the same pair passes the in-flight check
too.  Both park (zero calls issued so far), and as the other calls complete
both acquire slots and each issues its own outbound call: two calls for one
pair, where the claim demands exactly one. -/
theorem claim_C3_counterexample :
    (ensureTranslationInvoke (ensureTranslationInvoke
        (PairState.mk "hello" none false 3 0 0))).issued = 0
    ∧ (ensureTranslationInvoke (ensureTranslationInvoke
        (PairState.mk "hello" none false 3 0 0))).parked = 2
    ∧ (resumeParkedCaller (otherCallFinish (resumeParkedCaller (otherCallFinish
        (ensureTranslationInvoke (ensureTranslationInvoke
          (PairState.mk "hello" none false 3 0 0))))))).issued = 2 := by decide

/-- Claim C3, amended: (1) two immediate invocations of on-demand translation
for the same uncached pair issue exactly one outbound call PROVIDED fewer
than `MAX_CONCURRENT_TRANSLATIONS` calls are pending when the first runs (the
first then marks the pair in-flight in the same atomic segment, and the
second no-ops on the in-flight check); (2) re-running on-demand translation
for a pair whose cached translation is non-empty is a no-op issuing zero
calls (an empty-string cached value is treated as missing and retried); and
(3) re-running the batch algorithm when every non-user message with text has
a non-empty cached translation issues zero batch calls. -/
theorem claim_C3_amended :
    (∀ s : PairState, s.original ≠ "" → s.entry = none → s.inflight = false →
      s.translatingCount < MAX_CONCURRENT_TRANSLATIONS →
      (ensureTranslationInvoke (ensureTranslationInvoke s)).issued = s.issued + 1)
    ∧ (∀ (s : PairState) (t : String), s.entry = some t → t ≠ "" →
        ensureTranslationInvoke s = s)
    ∧ (∀ (msgs : List Msg) (language : String),
        (∀ m ∈ msgs, m.type ≠ MsgType.user → m.original ≠ "" →
          ∃ t, trLookup m language = some t ∧ t ≠ "") →
        numBatchCalls msgs language = 0) := by
  refine ⟨?_, ?_, ?_⟩
  · intro s h1 h2 h3 h4
    have hfirst : ensureTranslationInvoke s
        = { s with translatingCount := s.translatingCount + 1, inflight := true,
                   issued := s.issued + 1 } := by
      unfold ensureTranslationInvoke
      rw [if_neg h1, h2, h3]
      simp [h4]
    rw [hfirst]
    unfold ensureTranslationInvoke
    rw [if_neg h1, h2]
    simp
  · intro s t h ht
    unfold ensureTranslationInvoke
    by_cases h0 : s.original = ""
    · rw [if_pos h0]
    · rw [if_neg h0, h]
      simp [ht]
  · intro msgs language h
    have hempty : toTranslate msgs language = [] := by
      apply List.filter_eq_nil_iff.mpr
      intro m hm
      unfold needsTranslation
      by_cases htype : m.type = MsgType.user
      · simp [htype]
      · by_cases horig : m.original = ""
        · simp [horig]
        · obtain ⟨t, hlook, htne⟩ := h m hm htype horig
          simp [hlook, htne, horig]
    unfold numBatchCalls
    rw [hempty]
    rfl

/-- Witness for C3 (amended): with a free limiter, the double invocation for
an uncached pair issues exactly one call; an invocation for a pair cached
with a non-empty value is the identity; a message list whose only
non-user message is cached non-empty triggers zero batch calls. -/
theorem claim_C3_witness :
    (ensureTranslationInvoke (ensureTranslationInvoke
        (PairState.mk "hello" none false 0 0 0))).issued = 0 + 1
    ∧ ensureTranslationInvoke (PairState.mk "hello" (some "bonjour") false 0 0 0)
        = PairState.mk "hello" (some "bonjour") false 0 0 0
    ∧ numBatchCalls [Msg.mk "m1" .assistant "hello" (some [("fr-FR", "bonjour")])] "fr-FR" = 0 := by
  refine ⟨?_, ?_, ?_⟩
  · exact claim_C3_amended.1 (PairState.mk "hello" none false 0 0 0)
      (by decide) rfl rfl (by decide)
  · exact claim_C3_amended.2.1 (PairState.mk "hello" (some "bonjour") false 0 0 0)
      "bonjour" rfl (by decide)
  · exact claim_C3_amended.2.2 [Msg.mk "m1" .assistant "hello" (some [("fr-FR", "bonjour")])]
      "fr-FR" (by decide)

/-- Claim C4 is false on the code: `getMessageText` uses `??`, which falls
back to the original text only when the cache entry is `undefined`/`null` —
a PRESENT but EMPTY entry is returned as-is.  For a message whose `ja-JP`
entry is the empty string, the resolver returns `""` where the claim demands
the original text `"hello"`. -/
theorem claim_C4_counterexample :
    getMessageText (Msg.mk "1" .assistant "hello" (some [("ja-JP", "")])) "ja-JP" = ""
    ∧ (Msg.mk "1" .assistant "hello" (some [("ja-JP", "")])).original = "hello" := by decide

/-- Claim C4, amended: the display resolver returns `translations[language]`
whenever that entry is PRESENT (including when it is the empty string), and
returns the message's original text exactly when the entry is absent.  It is
a pure total function: it never raises and performs no network call or
mutation. -/
theorem claim_C4_amended (m : Msg) (language : String) :
    (∀ t, trLookup m language = some t → getMessageText m language = t)
    ∧ (trLookup m language = none → getMessageText m language = m.original) := by
  constructor
  · intro t h
    unfold getMessageText
    rw [h]
  · intro h
    unfold getMessageText
    rw [h]

/-- Witness for C4 (amended): a present entry is returned, an absent entry
falls back to the original text. -/
theorem claim_C4_witness :
    getMessageText (Msg.mk "1" .assistant "hi" (some [("ja-JP", "konnichiwa")])) "ja-JP"
        = "konnichiwa"
    ∧ getMessageText (Msg.mk "2" .assistant "hi" none) "ja-JP" = "hi" :=
  ⟨(claim_C4_amended (Msg.mk "1" .assistant "hi" (some [("ja-JP", "konnichiwa")])) "ja-JP").1
      "konnichiwa" (by decide),
   (claim_C4_amended (Msg.mk "2" .assistant "hi" none) "ja-JP").2 (by decide)⟩

/-! # Claims C8 - C9: batch translation -/

theorem batchGroupsFuel_irrel {α : Type} :
    ∀ (fuel₁ fuel₂ : Nat) (l : List α), l.length ≤ fuel₁ → l.length ≤ fuel₂ →
      batchGroupsFuel fuel₁ l = batchGroupsFuel fuel₂ l := by
  intro fuel₁
  induction fuel₁ with
  | zero =>
    intro fuel₂ l h1 _
    have : l = [] := List.eq_nil_of_length_eq_zero (by omega)
    subst this
    cases fuel₂ <;> rfl
  | succ fuel₁ ih =>
    intro fuel₂ l h1 h2
    cases l with
    | nil => cases fuel₂ <;> rfl
    | cons x xs =>
      cases fuel₂ with
      | zero => exact absurd h2 (by simp)
      | succ fuel₂ =>
        show (x :: xs.take (BATCH - 1)) :: batchGroupsFuel fuel₁ (xs.drop (BATCH - 1))
            = (x :: xs.take (BATCH - 1)) :: batchGroupsFuel fuel₂ (xs.drop (BATCH - 1))
        rw [ih fuel₂ _
          (by simp only [List.length_drop]; simp only [List.length_cons] at h1; omega)
          (by simp only [List.length_drop]; simp only [List.length_cons] at h2; omega)]

theorem batchGroupsFuel_congr {α : Type} (fuel : Nat) (l : List α)
    (h : l.length ≤ fuel) : batchGroupsFuel fuel l = batchGroups l :=
  batchGroupsFuel_irrel fuel l.length l h le_rfl

/-- The loop equation of the batch grouping. -/
theorem batchGroups_cons {α : Type} (x : α) (xs : List α) :
    batchGroups (x :: xs)
      = (x :: xs.take (BATCH - 1)) :: batchGroups (xs.drop (BATCH - 1)) := by
  show (x :: xs.take (BATCH - 1)) :: batchGroupsFuel xs.length (xs.drop (BATCH - 1)) = _
  rw [batchGroupsFuel_congr xs.length _ (by simp only [List.length_drop]; omega)]

/-- The groups concatenate back to the grouped list: nothing is lost,
reordered or duplicated. -/
theorem batchGroups_join {α : Type} :
    ∀ (n : Nat) (l : List α), l.length ≤ n → (batchGroups l).flatten = l := by
  intro n
  induction n with
  | zero =>
    intro l h
    have : l = [] := List.eq_nil_of_length_eq_zero (by omega)
    subst this
    rfl
  | succ n ih =>
    intro l h
    cases l with
    | nil => rfl
    | cons x xs =>
      rw [batchGroups_cons, List.flatten_cons]
      rw [ih _ (by simp only [List.length_drop]; simp only [List.length_cons] at h; omega)]
      rw [List.cons_append, List.take_append_drop]

/-- Every group has at most `BATCH = 8` elements. -/
theorem batchGroups_mem_length {α : Type} :
    ∀ (n : Nat) (l : List α) (g : List α), l.length ≤ n → g ∈ batchGroups l →
      g.length ≤ BATCH := by
  intro n
  induction n with
  | zero =>
    intro l g h hm
    have : l = [] := List.eq_nil_of_length_eq_zero (by omega)
    subst this
    simp [batchGroups, batchGroupsFuel] at hm
  | succ n ih =>
    intro l g h hm
    cases l with
    | nil => simp [batchGroups, batchGroupsFuel] at hm
    | cons x xs =>
      rw [batchGroups_cons] at hm
      rcases List.mem_cons.mp hm with hg | hg
      · subst hg
        simp only [List.length_cons, List.length_take, BATCH]
        omega
      · exact ih _ g (by simp only [List.length_drop]; simp only [List.length_cons] at h; omega) hg

/-- Every group is a sublist of the grouped list (in particular its ids stay
duplicate-free when the list's are). -/
theorem batchGroups_mem_sublist {α : Type} :
    ∀ (n : Nat) (l : List α) (g : List α), l.length ≤ n → g ∈ batchGroups l →
      g.Sublist l := by
  intro n
  induction n with
  | zero =>
    intro l g h hm
    have : l = [] := List.eq_nil_of_length_eq_zero (by omega)
    subst this
    simp [batchGroups, batchGroupsFuel] at hm
  | succ n ih =>
    intro l g h hm
    cases l with
    | nil => simp [batchGroups, batchGroupsFuel] at hm
    | cons x xs =>
      rw [batchGroups_cons] at hm
      rcases List.mem_cons.mp hm with hg | hg
      · subst hg
        exact List.Sublist.cons₂ x (List.take_sublist _ _)
      · have hsub : g.Sublist (xs.drop (BATCH - 1)) :=
          ih _ g (by simp only [List.length_drop]; simp only [List.length_cons] at h; omega) hg
        exact (hsub.trans (List.drop_sublist _ _)).cons x

/-- Between 1 and 8 elements form exactly one group. -/
theorem batchGroups_singleton {α : Type} (l : List α) (hne : l ≠ [])
    (hle : l.length ≤ BATCH) : batchGroups l = [l] := by
  cases l with
  | nil => exact absurd rfl hne
  | cons x xs =>
    rw [batchGroups_cons]
    have h7 : xs.length ≤ BATCH - 1 := by
      simp only [List.length_cons] at hle
      omega
    rw [List.take_of_length_le h7, List.drop_eq_nil_of_le h7]
    rfl

/-- `findIndex` by id over a duplicate-free list locates exactly the position
whose id is queried. -/
theorem jsFindIndexEntry_nodup_id :
    ∀ (l : List Msg), (l.map Msg.id).Nodup →
      ∀ (i : Nat) (hi : i < l.length) (s : String), (l.get ⟨i, hi⟩).id = s →
        jsFindIndexEntry (fun b => decide (b.id = s)) l = some (i, l.get ⟨i, hi⟩) := by
  intro l
  induction l with
  | nil =>
    intro _ i hi
    exact absurd hi (by simp)
  | cons a as ih =>
    intro hnodup i hi s hs
    have hnodup' : (as.map Msg.id).Nodup := (List.nodup_cons.mp (by simpa using hnodup)).2
    cases i with
    | zero =>
      unfold jsFindIndexEntry
      rw [if_pos (by simpa using hs)]
      rfl
    | succ j =>
      have hj : j < as.length := by simpa using hi
      have hsj : (as.get ⟨j, hj⟩).id = s := hs
      have hmem : s ∈ as.map Msg.id := by
        rw [← hsj]
        exact List.mem_map_of_mem Msg.id (as.get_mem _ _)
      have hna : a.id ∉ as.map Msg.id := (List.nodup_cons.mp (by simpa using hnodup)).1
      have hne : ¬(a.id = s) := fun h => hna (h ▸ hmem)
      unfold jsFindIndexEntry
      rw [if_neg (by simpa using hne), ih hnodup' j hj s hsj]
      rfl

/-- The batch completion preserves the number of messages. -/
theorem applyBatchResult_length (msgs batch : List Msg) (results : List String)
    (language : String) :
    (applyBatchResult msgs batch results language).length = msgs.length := by
  unfold applyBatchResult
  exact List.length_map _ _

/-- Claim C8: the language-change batch flow partitions the messages needing
translation into groups of at most `BATCH = 8` covering them exactly and in
order; it issues one combined request per group sequentially — in particular,
when between 1 and 8 messages need translation (e.g. 5 untranslated assistant
messages), exactly one batch call is issued; and the completion of a group
`batch` with a same-length response `results` caches `results[i]` for the
message whose id is `batch[i].id` — assignment is positional, independent of
any timing. -/
theorem claim_C8 (msgs : List Msg) (language : String)
    (hnodup : (msgs.map Msg.id).Nodup) :
    ((batchGroups (toTranslate msgs language)).flatten = toTranslate msgs language)
    ∧ (∀ g ∈ batchGroups (toTranslate msgs language), g.length ≤ BATCH)
    ∧ (0 < (toTranslate msgs language).length →
        (toTranslate msgs language).length ≤ BATCH →
        numBatchCalls msgs language = 1)
    ∧ (∀ batch, batch ∈ batchGroups (toTranslate msgs language) →
        ∀ (results : List String) (hlen : results.length = batch.length)
          (i : Nat) (hi : i < batch.length) (j : Nat) (hj : j < msgs.length),
          (msgs.get ⟨j, hj⟩).id = (batch.get ⟨i, hi⟩).id →
          trLookup ((applyBatchResult msgs batch results language).get
              ⟨j, by rw [applyBatchResult_length]; exact hj⟩) language
            = some (results.get ⟨i, by rw [hlen]; exact hi⟩)) := by
  refine ⟨batchGroups_join _ _ le_rfl,
          fun g hg => batchGroups_mem_length _ _ g le_rfl hg,
          fun hpos hle => ?_,
          fun batch hb results hlen i hi j hj hid => ?_⟩
  · unfold numBatchCalls
    rw [batchGroups_singleton _ (by intro h; rw [h] at hpos; simp at hpos) hle]
    rfl
  · have hsub : batch.Sublist (toTranslate msgs language) :=
      batchGroups_mem_sublist _ _ batch le_rfl hb
    have hsub2 : batch.Sublist msgs := hsub.trans (List.filter_sublist _)
    have hbnodup : (batch.map Msg.id).Nodup :=
      List.Nodup.sublist (List.Sublist.map Msg.id hsub2) hnodup
    have hfind := jsFindIndexEntry_nodup_id batch hbnodup i hi _ hid.symm
    have hresi : results[i]? = some (results.get ⟨i, by rw [hlen]; exact hi⟩) := by
      rw [List.getElem?_eq_getElem (by rw [hlen]; exact hi)]
      rfl
    unfold applyBatchResult
    rw [List.get_eq_getElem, List.getElem_map]
    show trLookup
        (match jsFindIndex (fun b => decide (b.id = (msgs.get ⟨j, hj⟩).id)) batch with
         | some idx =>
           match results[idx]? with
           | some r =>
             { msgs.get ⟨j, hj⟩ with
                 translations := some (kvInsert ((msgs.get ⟨j, hj⟩).translations.getD [])
                   language r) }
           | none =>
             { msgs.get ⟨j, hj⟩ with
                 translations := some (kvErase ((msgs.get ⟨j, hj⟩).translations.getD [])
                   language) }
         | none => msgs.get ⟨j, hj⟩)
        language = _
    rw [jsFindIndex, hfind]
    dsimp only [Option.map]
    rw [hresi]
    dsimp only
    simp only [trLookup]
    exact kvLookup_kvInsert_self _ _ _

/-- Witness for C8: five untranslated assistant messages; the single group is
the whole list, one batch call is issued, and the response
`["A", "B", "C", "D", "E"]` is cached positionally: the first message gets
`"A"`, the fifth gets `"E"`. -/
theorem claim_C8_witness :
    numBatchCalls
      [Msg.mk "m1" .assistant "t1" none, Msg.mk "m2" .assistant "t2" none,
       Msg.mk "m3" .assistant "t3" none, Msg.mk "m4" .assistant "t4" none,
       Msg.mk "m5" .assistant "t5" none] "ja-JP" = 1
    ∧ trLookup ((applyBatchResult
        [Msg.mk "m1" .assistant "t1" none, Msg.mk "m2" .assistant "t2" none,
         Msg.mk "m3" .assistant "t3" none, Msg.mk "m4" .assistant "t4" none,
         Msg.mk "m5" .assistant "t5" none]
        (toTranslate
          [Msg.mk "m1" .assistant "t1" none, Msg.mk "m2" .assistant "t2" none,
           Msg.mk "m3" .assistant "t3" none, Msg.mk "m4" .assistant "t4" none,
           Msg.mk "m5" .assistant "t5" none] "ja-JP")
        ["A", "B", "C", "D", "E"] "ja-JP").get ⟨0, by decide⟩) "ja-JP" = some "A"
    ∧ trLookup ((applyBatchResult
        [Msg.mk "m1" .assistant "t1" none, Msg.mk "m2" .assistant "t2" none,
         Msg.mk "m3" .assistant "t3" none, Msg.mk "m4" .assistant "t4" none,
         Msg.mk "m5" .assistant "t5" none]
        (toTranslate
          [Msg.mk "m1" .assistant "t1" none, Msg.mk "m2" .assistant "t2" none,
           Msg.mk "m3" .assistant "t3" none, Msg.mk "m4" .assistant "t4" none,
           Msg.mk "m5" .assistant "t5" none] "ja-JP")
        ["A", "B", "C", "D", "E"] "ja-JP").get ⟨4, by decide⟩) "ja-JP" = some "E" := by
  have h := claim_C8
    [Msg.mk "m1" .assistant "t1" none, Msg.mk "m2" .assistant "t2" none,
     Msg.mk "m3" .assistant "t3" none, Msg.mk "m4" .assistant "t4" none,
     Msg.mk "m5" .assistant "t5" none] "ja-JP" (by decide)
  refine ⟨h.2.2.1 (by decide) (by decide), ?_, ?_⟩
  · exact h.2.2.2 _ (by decide) ["A", "B", "C", "D", "E"] (by decide) 0 (by decide)
      0 (by decide) (by decide)
  · exact h.2.2.2 _ (by decide) ["A", "B", "C", "D", "E"] (by decide) 4 (by decide)
      4 (by decide) (by decide)

/-- Claim C9: when no JSON array can be obtained from the collaborator's
response — the direct parse is not a successful array, and the bracket
extraction yields none either — `batchTranslate` returns the original input
texts unchanged (same order, same length) instead of raising. -/
theorem claim_C9 (texts : List String) (parsed : JsonParseOutcome)
    (extracted : Option JsonParseOutcome)
    (h1 : ∀ xs, parsed ≠ .ok (.arr xs))
    (h2 : ∀ xs, extracted ≠ some (.ok (.arr xs))) :
    batchTranslateHandle texts parsed extracted = texts := by
  unfold batchTranslateHandle
  by_cases he : texts.isEmpty
  · rw [if_pos he]
    exact (List.isEmpty_iff.mp he).symm
  · rw [if_neg he]
    match parsed with
    | .ok .null => rfl
    | .ok (.bool b) => rfl
    | .ok (.num n) => rfl
    | .ok (.str s) => rfl
    | .ok (.obj fs) => rfl
    | .ok (.arr xs) => exact absurd rfl (h1 xs)
    | .err =>
      match extracted with
      | none => rfl
      | some .err => rfl
      | some (.ok .null) => rfl
      | some (.ok (.bool b)) => rfl
      | some (.ok (.num n)) => rfl
      | some (.ok (.str s)) => rfl
      | some (.ok (.obj fs)) => rfl
      | some (.ok (.arr xs)) => exact absurd rfl (h2 xs)

/-- Witness for C9: a malformed response (parse fails, no bracket match)
falls back to the inputs. -/
theorem claim_C9_witness :
    batchTranslateHandle ["hello", "world"] .err none = ["hello", "world"] :=
  claim_C9 ["hello", "world"] .err none
    (fun xs h => by cases h) (fun xs h => by cases h)

/-! # Claim C5: tolerant decoding -/

/-- Every non-`null` raw message decodes successfully. -/
theorem decodeMessage_ok (v : JVal) (hv : v ≠ .null) (now : Nat) :
    ∃ m, decodeMessage v now = .ok m := by
  cases v with
  | null => exact absurd rfl hv
  | bool b => exact ⟨_, rfl⟩
  | num n => exact ⟨_, rfl⟩
  | str s => exact ⟨_, rfl⟩
  | arr xs => exact ⟨_, rfl⟩
  | obj fs => exact ⟨_, rfl⟩

theorem mapM_decodeMessage_ok (now : Nat) :
    ∀ l : List JVal, (∀ m ∈ l, m ≠ .null) →
      ∃ ms, l.mapM (fun m => decodeMessage m now) = .ok ms ∧ ms.length = l.length := by
  intro l
  induction l with
  | nil => exact fun _ => ⟨[], rfl, rfl⟩
  | cons a as ih =>
    intro h
    obtain ⟨m, hm⟩ := decodeMessage_ok a (h a (by simp)) now
    obtain ⟨ms, hms, hlen⟩ := ih fun x hx => h x (by simp [hx])
    refine ⟨m :: ms, ?_, by simp [hlen]⟩
    rw [List.mapM_cons, hm, hms]
    rfl

/-- Every safe raw entry decodes successfully. -/
theorem decodeRecord_ok_of_safe (v : JVal) (now : Nat) (h : SafeChatRaw v) :
    ∃ r, decodeRecord v now = .ok r := by
  obtain ⟨hnull, hmsgs⟩ := h
  obtain ⟨ms, hms, _⟩ := mapM_decodeMessage_ok now (rawMessages v) hmsgs
  cases v with
  | null => exact absurd rfl hnull
  | bool b => exact ⟨_, by unfold decodeRecord; rw [hms]⟩
  | num n => exact ⟨_, by unfold decodeRecord; rw [hms]⟩
  | str s => exact ⟨_, by unfold decodeRecord; rw [hms]⟩
  | arr xs => exact ⟨_, by unfold decodeRecord; rw [hms]⟩
  | obj fs => exact ⟨_, by unfold decodeRecord; rw [hms]⟩

theorem mapM_decodeRecord_ok_of_safe (now : Nat) :
    ∀ l : List JVal, (∀ v ∈ l, SafeChatRaw v) →
      ∃ recs, l.mapM (fun chat => decodeRecord chat now) = .ok recs
        ∧ recs.length = l.length := by
  intro l
  induction l with
  | nil => exact fun _ => ⟨[], rfl, rfl⟩
  | cons a as ih =>
    intro h
    obtain ⟨r, hr⟩ := decodeRecord_ok_of_safe a now (h a (by simp))
    obtain ⟨recs, hrecs, hlen⟩ := ih fun x hx => h x (by simp [hx])
    refine ⟨r :: recs, ?_, by simp [hlen]⟩
    rw [List.mapM_cons, hr, hrecs]
    rfl

theorem mapM_except_append {α β : Type} (f : α → Except Unit β) :
    ∀ (l₁ l₂ : List α) (xs ys : List β), l₁.mapM f = .ok xs → l₂.mapM f = .ok ys →
      (l₁ ++ l₂).mapM f = .ok (xs ++ ys) := by
  intro l₁
  induction l₁ with
  | nil =>
    intro l₂ xs ys h1 h2
    have : xs = [] := by
      have : (Except.ok xs : Except Unit (List β)) = .ok ([] : List β) := by
        rw [← h1]; rfl
      cases this
      rfl
    subst this
    simpa using h2
  | cons a as ih =>
    intro l₂ xs ys h1 h2
    rw [List.mapM_cons] at h1
    cases ha : f a with
    | error e => rw [ha] at h1; cases h1
    | ok b =>
      rw [ha] at h1
      cases has : as.mapM f with
      | error e =>
        rw [has] at h1
        cases h1
      | ok bs =>
        rw [has] at h1
        have hxs : xs = b :: bs := by
          have : (Except.ok (b :: bs) : Except Unit (List β)) = .ok xs := h1
          cases this
          rfl
        subst hxs
        rw [List.cons_append, List.mapM_cons, ha, ih l₂ bs ys has h2]
        rfl

/-- Claim C5 is false on the code in its per-record-isolation part: one
malformed (`null`) record in the stored array makes the mapping callback
throw a `TypeError` at that entry; the surrounding `try` catches it and
returns `[]`, so the whole collection load IS abandoned — here a perfectly
decodable record is stored next to a `null` entry and the loader returns the
empty list instead of the other record. -/
theorem claim_C5_counterexample :
    loadChatsFromStorage (some (.arr [.obj [("id", .str "c1")], .null])) 0 = []
    ∧ (loadChatsFromStorage (some (.arr [.obj [("id", .str "c1")]])) 0).length = 1 := by
  constructor
  · rfl
  · rfl

/-- Claim C5, amended: decoding never raises (every failure is caught,
yielding `[]`), and for stored arrays whose entries are not `null` (and whose
messages contain no `null` entry) decoding is per-record — one output record
per entry, and appending a further safe record cannot disturb the others.
Structurally invalid FIELDS are coerced per-field to safe defaults: a record
with no usable field decodes with empty strings, dates set to the current
time, default metadata; a message with an unrecognized role string decodes
with role `system`.  Per-record isolation however fails for `null` entries
(see the counterexample), so it is stated here only for safe entries. -/
theorem claim_C5_amended (l : List JVal) (now : Nat) (h : ∀ v ∈ l, SafeChatRaw v) :
    (loadChatsFromStorage (some (.arr l)) now).length = l.length
    ∧ (∀ v : JVal, SafeChatRaw v →
        loadChatsFromStorage (some (.arr (l ++ [v]))) now
          = loadChatsFromStorage (some (.arr l)) now
              ++ loadChatsFromStorage (some (.arr [v])) now)
    ∧ decodeRecord (.obj []) now
        = .ok (SRecord.mk "" none "" "" none [] defaultMeta (.valid now) (.valid now)
            none false none)
    ∧ decodeMessage (.obj [("type", .str "banana"), ("timestamp", .bool true)]) now
        = .ok (SMessage.mk "" .system "" none (.valid now) none none) := by
  obtain ⟨recs, hrecs, hlen⟩ := mapM_decodeRecord_ok_of_safe now l h
  refine ⟨?_, ?_, rfl, rfl⟩
  · unfold loadChatsFromStorage
    dsimp only
    rw [hrecs]
    exact hlen
  · intro v hv
    obtain ⟨r, hr⟩ := decodeRecord_ok_of_safe v now hv
    have hsingle : ([v] : List JVal).mapM (fun chat => decodeRecord chat now)
        = .ok [r] := by
      rw [List.mapM_cons, hr]
      rfl
    unfold loadChatsFromStorage
    dsimp only
    rw [hrecs, hsingle, mapM_except_append _ l [v] recs [r] hrecs hsingle]

/-- Witness for C5 (amended): two safe records (one of them structurally
empty) decode to two records; appending a third safe record appends exactly
its decoding. -/
theorem claim_C5_witness :
    (loadChatsFromStorage (some (.arr [.obj [("id", .str "c1")], .obj []])) 0).length = 2
    ∧ loadChatsFromStorage (some (.arr ([.obj [("id", .str "c1")], .obj []] ++ [.obj [("title", .str "t")]]))) 0
        = loadChatsFromStorage (some (.arr [.obj [("id", .str "c1")], .obj []])) 0
            ++ loadChatsFromStorage (some (.arr [.obj [("title", .str "t")]])) 0 := by
  have hsafe : ∀ v ∈ [JVal.obj [("id", .str "c1")], JVal.obj []], SafeChatRaw v := by
    intro v hv
    rcases List.mem_cons.mp hv with h | h
    · subst h
      exact ⟨by simp, by intro m hm; simp [rawMessages, jsGetD, jsObjLookup, asArray?] at hm⟩
    · rcases List.mem_cons.mp h with h2 | h2
      · subst h2
        exact ⟨by simp, by intro m hm; simp [rawMessages, jsGetD, jsObjLookup, asArray?] at hm⟩
      · simp at h2
  have h := claim_C5_amended [.obj [("id", .str "c1")], .obj []] 0 hsafe
  refine ⟨h.1, ?_⟩
  exact h.2.1 (.obj [("title", .str "t")])
    ⟨by simp, by intro m hm; simp [rawMessages, jsGetD, jsObjLookup, asArray?] at hm⟩

/-! # Claims C6 and C10: store operations -/

/-- Claim C6 is false on the code as universally stated: a message list with
NO user message is never persisted — `autoSaveChat` returns the stored list
unchanged — even though its computed title `"Untitled Chat"` can equal the
title of an existing stored conversation.  Here the computed title matches
the stored record's title, yet the record's `messages`/`updatedAt` are not
replaced and the stored collection is returned as-is. -/
theorem claim_C6_counterexample :
    getChatTitle [SMessage.mk "a1" .assistant "hi" none (.valid 0) none none]
      = "Untitled Chat"
    ∧ autoSaveChat 5 "dev" [SMessage.mk "a1" .assistant "hi" none (.valid 0) none none]
        [SRecord.mk "old" none "Untitled Chat" "snip" none [] defaultMeta (.valid 0)
          (.valid 0) none false none]
      = [SRecord.mk "old" none "Untitled Chat" "snip" none [] defaultMeta (.valid 0)
          (.valid 0) none false none] :=
  ⟨rfl, rfl⟩

/-- Claim C6, amended: PROVIDED the saved list contains at least one user
message, saving with a computed title equal to the title of a stored
conversation updates that one conversation in place — the list length is
unchanged, the matched record keeps its `id` and `createdAt`, and its
`messages`, `snippet`, `title` and `updatedAt` are replaced; when no stored
conversation has the computed title, a fresh record carrying the computed
title and the messages is placed at the head of the list.  (A list with no
user message is never persisted; see the counterexample.) -/
theorem claim_C6_amended (now : Nat) (device : String) (messages : List SMessage)
    (chats : List SRecord)
    (huser : (messages.filter fun m => decide (m.type = MsgType.user)) ≠ []) :
    (∀ i old,
      jsFindIndexEntry (fun c => decide (c.title = getChatTitle messages)) chats
          = some (i, old) →
      ∃ updated,
        autoSaveChat now device messages chats = chats.set i updated
        ∧ (autoSaveChat now device messages chats).length = chats.length
        ∧ updated.id = old.id ∧ updated.createdAt = old.createdAt
        ∧ updated.messages = messages ∧ updated.snippet = getChatSnippet messages
        ∧ updated.title = getChatTitle messages ∧ updated.updatedAt = .valid now)
    ∧ (jsFindIndexEntry (fun c => decide (c.title = getChatTitle messages)) chats
          = none →
      ∃ fresh,
        autoSaveChat now device messages chats = fresh :: chats
        ∧ fresh.title = getChatTitle messages ∧ fresh.messages = messages
        ∧ fresh.snippet = getChatSnippet messages
        ∧ fresh.createdAt = .valid now ∧ fresh.updatedAt = .valid now) := by
  have hne : ¬((messages.filter fun m => decide (m.type = MsgType.user)).isEmpty = true) := by
    simpa [List.isEmpty_iff] using huser
  constructor
  · intro i old hfind
    have hmain : autoSaveChat now device messages chats
        = chats.set i
          { id := old.id, userId := none, title := getChatTitle messages,
            snippet := getChatSnippet messages, city := findCityMatch messages,
            messages := messages,
            meta := .obj [("device", .str (device.take 50)), ("version", .num 1),
              ("truncated",
                .bool (decide (messagesSerializedLength messages > MAX_MESSAGE_SIZE)))],
            createdAt := old.createdAt, updatedAt := .valid now,
            lastSyncedAt := none, synced := false, unsyncedOps := none } := by
      unfold autoSaveChat
      rw [if_neg hne]
      dsimp only
      rw [hfind]
    exact ⟨_, hmain, by rw [hmain]; exact List.length_set chats _ _,
      rfl, rfl, rfl, rfl, rfl, rfl⟩
  · intro hfind
    have hmain : autoSaveChat now device messages chats
        = { id := "local_" ++ encMs now, userId := none, title := getChatTitle messages,
            snippet := getChatSnippet messages, city := findCityMatch messages,
            messages := messages,
            meta := .obj [("device", .str (device.take 50)), ("version", .num 1),
              ("truncated",
                .bool (decide (messagesSerializedLength messages > MAX_MESSAGE_SIZE)))],
            createdAt := .valid now, updatedAt := .valid now,
            lastSyncedAt := none, synced := false, unsyncedOps := none } :: chats := by
      unfold autoSaveChat
      rw [if_neg hne]
      dsimp only
      rw [hfind]
    exact ⟨_, hmain, rfl, rfl, rfl, rfl, rfl⟩

set_option maxRecDepth 8192 in
/-- Witness for C6 (amended): a one-user-message list saved over a stored
conversation with the same computed title replaces it in place; saved over an
unrelated conversation, a fresh record is prepended. -/
theorem claim_C6_witness :
    (∃ updated,
      autoSaveChat 7 "dev" [SMessage.mk "u1" .user "hi" none (.valid 1) none none]
          [SRecord.mk "old" none "hi" "snip" none [] defaultMeta (.valid 0) (.valid 0)
            none false none]
        = [SRecord.mk "old" none "hi" "snip" none [] defaultMeta (.valid 0) (.valid 0)
            none false none].set 0 updated
      ∧ updated.id = "old" ∧ updated.createdAt = .valid 0
      ∧ updated.messages = [SMessage.mk "u1" .user "hi" none (.valid 1) none none]
      ∧ updated.updatedAt = .valid 7)
    ∧ (∃ fresh,
      autoSaveChat 7 "dev" [SMessage.mk "u1" .user "hi" none (.valid 1) none none]
          [SRecord.mk "old" none "other" "snip" none [] defaultMeta (.valid 0) (.valid 0)
            none false none]
        = fresh :: [SRecord.mk "old" none "other" "snip" none [] defaultMeta (.valid 0)
            (.valid 0) none false none]
      ∧ fresh.title = "hi"
      ∧ fresh.messages = [SMessage.mk "u1" .user "hi" none (.valid 1) none none]) := by
  constructor
  · obtain ⟨updated, h1, _, h3, h4, h5, _, _, h7⟩ :=
      (claim_C6_amended 7 "dev" [SMessage.mk "u1" .user "hi" none (.valid 1) none none]
        [SRecord.mk "old" none "hi" "snip" none [] defaultMeta (.valid 0) (.valid 0)
          none false none]
        (by intro h; cases h)).1 0
        (SRecord.mk "old" none "hi" "snip" none [] defaultMeta (.valid 0) (.valid 0)
          none false none) rfl
    exact ⟨updated, h1, h3, h4, h5, h7⟩
  · obtain ⟨fresh, h1, h2, h3, _⟩ :=
      (claim_C6_amended 7 "dev" [SMessage.mk "u1" .user "hi" none (.valid 1) none none]
        [SRecord.mk "old" none "other" "snip" none [] defaultMeta (.valid 0) (.valid 0)
          none false none]
        (by intro h; cases h)).2 rfl
    exact ⟨fresh, h1, by rw [h2]; rfl, h3⟩

/-- Claim C10: every store mutation touches only the matched record.
`deleteChat` keeps exactly the records whose id differs, as a sublist (same
relative order, each survivor unchanged); `renameChat` rewrites the stored
list only at the matched index, the updated record agreeing with the old one
on every field except `title` and `updatedAt`; `autoSaveChat` over an
existing title rewrites only the matched index.  The `[j]?` equations state
that every other position is untouched. -/
theorem claim_C10 (chats : List SRecord) (chatId newTitle : String) (now : Nat)
    (device : String) (messages : List SMessage) :
    ((deleteChat chatId chats).Sublist chats
      ∧ (∀ c ∈ chats, c.id ≠ chatId → c ∈ deleteChat chatId chats)
      ∧ (∀ c ∈ deleteChat chatId chats, c.id ≠ chatId))
    ∧ (∀ i old,
        jsFindIndexEntry (fun c => decide (c.id = chatId)) chats = some (i, old) →
        (renameChatList chats chatId newTitle now)[i]?
            = some { old with title := newTitle, updatedAt := .valid now }
        ∧ ({ old with title := newTitle, updatedAt := .valid now } : SRecord).id = old.id
        ∧ ({ old with title := newTitle, updatedAt := .valid now } : SRecord).snippet
            = old.snippet
        ∧ ({ old with title := newTitle, updatedAt := .valid now } : SRecord).messages
            = old.messages
        ∧ ({ old with title := newTitle, updatedAt := .valid now } : SRecord).createdAt
            = old.createdAt
        ∧ ({ old with title := newTitle, updatedAt := .valid now } : SRecord).synced
            = old.synced
        ∧ ∀ j, j ≠ i → (renameChatList chats chatId newTitle now)[j]? = chats[j]?)
    ∧ (∀ i old,
        jsFindIndexEntry (fun c => decide (c.title = getChatTitle messages)) chats
            = some (i, old) →
        ∀ j, j ≠ i → (autoSaveChat now device messages chats)[j]? = chats[j]?) := by
  refine ⟨⟨List.filter_sublist chats, ?_, ?_⟩, ?_, ?_⟩
  · intro c hc hne
    exact List.mem_filter.mpr ⟨hc, by simpa using hne⟩
  · intro c hc
    have := (List.mem_filter.mp hc).2
    simpa using this
  · intro i old hfind
    have hi : i < chats.length := by
      clear* - hfind
      induction chats generalizing i with
      | nil => cases hfind
      | cons a as ih =>
        unfold jsFindIndexEntry at hfind
        by_cases ha : decide (a.id = chatId) = true
        · rw [if_pos ha] at hfind
          cases hfind
          simp
        · rw [if_neg ha] at hfind
          cases hfe : jsFindIndexEntry (fun c => decide (c.id = chatId)) as with
          | none => rw [hfe] at hfind; cases hfind
          | some e =>
            rw [hfe] at hfind
            cases hfind
            have := ih e.1 (by rw [hfe])
            simp only [List.length_cons]
            omega
    refine ⟨?_, rfl, rfl, rfl, rfl, rfl, ?_⟩
    · unfold renameChatList
      rw [hfind]
      exact List.getElem?_set_self (by simpa using hi)
    · intro j hj
      unfold renameChatList
      rw [hfind]
      exact List.getElem?_set_ne (fun h => hj h.symm)
  · intro i old hfind j hj
    unfold autoSaveChat
    by_cases huser : ((messages.filter fun m => decide (m.type = MsgType.user)).isEmpty = true)
    · rw [if_pos huser]
    · rw [if_neg huser]
      dsimp only
      rw [hfind]
      exact List.getElem?_set_ne (fun h => hj h.symm)

set_option maxRecDepth 8192 in
/-- Witness for C10: deleting id `"b"` from a two-record store keeps record
`"a"` and drops record `"b"`; renaming record `"a"` leaves position 1
untouched and preserves the other fields; re-saving over the title of record
0 leaves position 1 untouched. -/
theorem claim_C10_witness :
    (SRecord.mk "a" none "ta" "s" none [] defaultMeta (.valid 0) (.valid 0) none false none)
        ∈ deleteChat "b"
          [SRecord.mk "a" none "ta" "s" none [] defaultMeta (.valid 0) (.valid 0) none false none,
           SRecord.mk "b" none "tb" "s" none [] defaultMeta (.valid 0) (.valid 0) none false none]
    ∧ (renameChatList
        [SRecord.mk "a" none "ta" "s" none [] defaultMeta (.valid 0) (.valid 0) none false none,
         SRecord.mk "b" none "tb" "s" none [] defaultMeta (.valid 0) (.valid 0) none false none]
        "a" "renamed" 9)[1]?
      = some (SRecord.mk "b" none "tb" "s" none [] defaultMeta (.valid 0) (.valid 0) none false none)
    ∧ (autoSaveChat 9 "dev" [SMessage.mk "u1" .user "ta" none (.valid 1) none none]
        [SRecord.mk "a" none "ta" "s" none [] defaultMeta (.valid 0) (.valid 0) none false none,
         SRecord.mk "b" none "tb" "s" none [] defaultMeta (.valid 0) (.valid 0) none false none])[1]?
      = some (SRecord.mk "b" none "tb" "s" none [] defaultMeta (.valid 0) (.valid 0) none false none) := by
  have h := claim_C10
    [SRecord.mk "a" none "ta" "s" none [] defaultMeta (.valid 0) (.valid 0) none false none,
     SRecord.mk "b" none "tb" "s" none [] defaultMeta (.valid 0) (.valid 0) none false none]
    "b" "renamed" 9 "dev" [SMessage.mk "u1" .user "ta" none (.valid 1) none none]
  have h2 := claim_C10
    [SRecord.mk "a" none "ta" "s" none [] defaultMeta (.valid 0) (.valid 0) none false none,
     SRecord.mk "b" none "tb" "s" none [] defaultMeta (.valid 0) (.valid 0) none false none]
    "a" "renamed" 9 "dev" [SMessage.mk "u1" .user "ta" none (.valid 1) none none]
  refine ⟨?_, ?_, ?_⟩
  · exact h.1.2.1 _ (by simp) (by decide)
  · have := (h2.2.1 0
      (SRecord.mk "a" none "ta" "s" none [] defaultMeta (.valid 0) (.valid 0) none false none)
      rfl).2.2.2.2.2.2 1 (by decide)
    rw [this]
    rfl
  · have := h2.2.2 0
      (SRecord.mk "a" none "ta" "s" none [] defaultMeta (.valid 0) (.valid 0) none false none)
      rfl 1 (by decide)
    rw [this]
    rfl

/-! # Claim C7: storage round-trip -/

theorem isObjTruthy_of_objlike (j : JVal) (h : IsObjLike j) :
    isObjTruthy (some j) = some j := by
  cases j with
  | obj fs => rfl
  | arr xs => rfl
  | null => exact h.elim
  | bool b => exact h.elim
  | num n => exact h.elim
  | str s => exact h.elim

theorem isObjTruthy_objlike (o : Option JVal) (j : JVal) (h : isObjTruthy o = some j) :
    IsObjLike j := by
  match o with
  | none => cases h
  | some .null => cases h
  | some (.bool b) => cases h
  | some (.num n) => cases h
  | some (.str s) => cases h
  | some (.arr xs) => cases h; trivial
  | some (.obj fs) => cases h; trivial

theorem jsObjLookup_append (l₁ l₂ : List (String × JVal)) (k : String) :
    jsObjLookup (l₁ ++ l₂) k
      = ((jsObjLookup l₁ k).or (jsObjLookup l₂ k)) := by
  unfold jsObjLookup
  rw [List.find?_append]
  cases List.find? (fun p => decide (p.1 = k)) l₁ <;> simp

theorem jsObjLookup_optField_self (k : String) (o : Option JVal) :
    jsObjLookup (optField k o) k = o := by
  cases o <;> simp [optField, jsObjLookup, List.find?]

theorem jsObjLookup_optField_ne (k k₂ : String) (h : ¬(k₂ = k)) (o : Option JVal) :
    jsObjLookup (optField k o) k₂ = none := by
  have h2 : ¬(k = k₂) := fun hh => h hh.symm
  cases o <;> simp [optField, jsObjLookup, List.find?, h2]

theorem decodeDateField_encodeDate (d : DateV) (hd : d ≠ .invalid) (now : Nat) :
    decodeDateField (some (encodeDate d)) now = d := by
  cases d with
  | invalid => exact absurd rfl hd
  | valid ms =>
    show decodeDateField (some (.str (encMs ms))) now = DateV.valid ms
    unfold decodeDateField
    dsimp only
    rw [parseMs_encMs]

/-- Round-trip of one stored message: serializing a decoder-produced message
(valid timestamp) and re-decoding it restores it field-for-field. -/
theorem decodeMessage_encodeMessage (m : SMessage) (hwf : SMessageWF m)
    (hts : m.timestamp ≠ .invalid) (now : Nat) :
    decodeMessage (encodeMessage m) now = .ok m := by
  obtain ⟨htr, hwd⟩ := hwf
  cases m with
  | mk id type original translations timestamp weatherData sources =>
    simp only at htr hwd hts
    obtain ⟨ms, hms⟩ : ∃ ms, timestamp = DateV.valid ms := by
      cases timestamp with
      | valid ms2 => exact ⟨ms2, rfl⟩
      | invalid => exact absurd rfl hts
    subst hms
    have htrl3 : isObjTruthy translations = translations := by
      cases htr2 : translations with
      | none => rfl
      | some j => exact isObjTruthy_of_objlike j (htr j (by rw [htr2]; rfl))
    have hwd3 : isObjTruthy weatherData = weatherData := by
      cases hwd2 : weatherData with
      | none => rfl
      | some j => exact isObjTruthy_of_objlike j (hwd j (by rw [hwd2]; rfl))
    cases translations <;> cases weatherData <;> cases sources <;> cases type <;>
      simp_all [encodeMessage, decodeMessage, optField, jsGetD, jsObjLookup,
        List.find?, jsStringCoalesce, jsToString, decodeRole, roleString,
        decodeDateField, parseMs_encMs, asArray?, encodeDate]

theorem mapM_decodeMessage_encodeMessage (now : Nat) :
    ∀ msgs : List SMessage, (∀ m ∈ msgs, SMessageWF m) →
      (∀ m ∈ msgs, m.timestamp ≠ .invalid) →
      (msgs.map encodeMessage).mapM (fun v => decodeMessage v now) = .ok msgs := by
  intro msgs
  induction msgs with
  | nil => exact fun _ _ => rfl
  | cons a as ih =>
    intro hwf hts
    rw [List.map_cons, List.mapM_cons,
        decodeMessage_encodeMessage a (hwf a (by simp)) (hts a (by simp)) now,
        ih (fun x hx => hwf x (by simp [hx])) (fun x hx => hts x (by simp [hx]))]
    rfl

/-- Round-trip of one stored conversation record (valid dates). -/
theorem decodeRecord_encodeRecord (c : SRecord) (hwf : SRecordWF c)
    (hd : SRecordDatesValid c) (now : Nat) :
    decodeRecord (encodeRecord c) now = .ok c := by
  obtain ⟨hmeta, hmsgs⟩ := hwf
  obtain ⟨hcd, hud, hls, hmd⟩ := hd
  cases c with
  | mk id userId title snippet city messages meta createdAt updatedAt lastSyncedAt
      synced unsyncedOps =>
    simp only at hmeta hmsgs hcd hud hls hmd
    obtain ⟨ca, hca⟩ : ∃ v, createdAt = DateV.valid v := by
      cases createdAt with
      | valid v => exact ⟨v, rfl⟩
      | invalid => exact absurd rfl hcd
    obtain ⟨ua, hua⟩ : ∃ v, updatedAt = DateV.valid v := by
      cases updatedAt with
      | valid v => exact ⟨v, rfl⟩
      | invalid => exact absurd rfl hud
    subst hca
    subst hua
    have hmm2 := mapM_decodeMessage_encodeMessage now messages hmsgs hmd
    have hmeta3 : isObjTruthy (some meta) = some meta := isObjTruthy_of_objlike meta hmeta
    cases lastSyncedAt with
    | none =>
      cases userId <;> cases city <;> cases unsyncedOps <;>
        simp_all [encodeRecord, decodeRecord, decodeRecordFields, optField, jsGetD,
          jsObjLookup, List.find?, jsStringCoalesce, jsToString, asString?, asArray?,
          jsTruthy, decodeDateField, decodeLastSynced, parseMs_encMs, encodeDate,
          rawMessages]
    | some d =>
      obtain ⟨la, hla⟩ : ∃ v, d = DateV.valid v := by
        cases d with
        | valid v => exact ⟨v, rfl⟩
        | invalid => exact (hls rfl).elim
      subst hla
      cases userId <;> cases city <;> cases unsyncedOps <;>
        simp_all [encodeRecord, decodeRecord, decodeRecordFields, optField, jsGetD,
          jsObjLookup, List.find?, jsStringCoalesce, jsToString, asString?, asArray?,
          jsTruthy, decodeDateField, decodeLastSynced, parseMs_encMs, encodeDate,
          rawMessages]

theorem mapM_except_mem {α β : Type} (f : α → Except Unit β) :
    ∀ (l : List α) (xs : List β), l.mapM f = .ok xs → ∀ x ∈ xs, ∃ a ∈ l, f a = .ok x := by
  intro l
  induction l with
  | nil =>
    intro xs h x hx
    have : xs = [] := by
      have h2 : (Except.ok xs : Except Unit (List β)) = .ok ([] : List β) := by
        rw [← h]; rfl
      cases h2
      rfl
    subst this
    exact absurd hx (by simp)
  | cons a as ih =>
    intro xs h x hx
    rw [List.mapM_cons] at h
    cases ha : f a with
    | error e => rw [ha] at h; cases h
    | ok b =>
      rw [ha] at h
      cases has : as.mapM f with
      | error e => rw [has] at h; cases h
      | ok bs =>
        rw [has] at h
        have hxs : xs = b :: bs := by
          have h2 : (Except.ok (b :: bs) : Except Unit (List β)) = .ok xs := h
          cases h2
          rfl
        subst hxs
        rcases List.mem_cons.mp hx with hxb | hxbs
        · exact ⟨a, by simp, hxb ▸ ha⟩
        · obtain ⟨a2, ha2, hfa2⟩ := ih bs has x hxbs
          exact ⟨a2, by simp [ha2], hfa2⟩

/-- Every decoded message satisfies the cast invariants. -/
theorem decodeMessage_wf (v : JVal) (now : Nat) (m : SMessage)
    (h : decodeMessage v now = .ok m) : SMessageWF m := by
  cases v
  case null => exact Except.noConfusion h
  all_goals (
    injection h with h2
    subst h2
    constructor
    · intro j hj
      simp only [Option.mem_def] at hj
      exact isObjTruthy_objlike _ j hj
    · intro j hj
      simp only [Option.mem_def] at hj
      exact isObjTruthy_objlike _ j hj)

theorem decodeRecordFields_meta_objlike (chat : JVal) (now : Nat)
    (messages : List SMessage) : IsObjLike (decodeRecordFields chat now messages).meta := by
  unfold decodeRecordFields
  cases hj : isObjTruthy (jsGetD chat "meta") with
  | none => exact trivial
  | some j =>
    have := isObjTruthy_objlike _ j hj
    simpa [hj] using this

theorem decodeRecord_wf_aux (chat : JVal) (now : Nat) (r : SRecord)
    (h : (match (rawMessages chat).mapM (fun m => decodeMessage m now) with
          | .error e => (.error e : Except Unit SRecord)
          | .ok messages => .ok (decodeRecordFields chat now messages)) = .ok r) :
    SRecordWF r := by
  cases heq : (rawMessages chat).mapM (fun m => decodeMessage m now) with
  | error e =>
    rw [heq] at h
    exact Except.noConfusion h
  | ok messages =>
    rw [heq] at h
    dsimp only at h
    injection h with h2
    subst h2
    refine ⟨decodeRecordFields_meta_objlike _ _ _, fun m hm => ?_⟩
    have hm2 : m ∈ messages := hm
    obtain ⟨a, _, hdec⟩ := mapM_except_mem _ _ _ heq m hm2
    exact decodeMessage_wf _ _ _ hdec

/-- Every decoded record satisfies the cast invariants. -/
theorem decodeRecord_wf (v : JVal) (now : Nat) (r : SRecord)
    (h : decodeRecord v now = .ok r) : SRecordWF r := by
  cases v with
  | null => exact Except.noConfusion h
  | bool b => exact decodeRecord_wf_aux (.bool b) now r h
  | num n => exact decodeRecord_wf_aux (.num n) now r h
  | str s => exact decodeRecord_wf_aux (.str s) now r h
  | arr xs => exact decodeRecord_wf_aux (.arr xs) now r h
  | obj fs => exact decodeRecord_wf_aux (.obj fs) now r h

/-- Every record the loader returns satisfies the cast invariants. -/
theorem loadChatsFromStorage_wf (raw : Option JVal) (now : Nat) :
    ∀ c ∈ loadChatsFromStorage raw now, SRecordWF c := by
  intro c hc
  match raw with
  | none => exact absurd hc (List.not_mem_nil c)
  | some v =>
    match v with
    | .null => exact absurd hc (List.not_mem_nil c)
    | .bool b => exact absurd hc (List.not_mem_nil c)
    | .num n => exact absurd hc (List.not_mem_nil c)
    | .str s => exact absurd hc (List.not_mem_nil c)
    | .obj fs => exact absurd hc (List.not_mem_nil c)
    | .arr items =>
      have hload : loadChatsFromStorage (some (.arr items)) now
          = match items.mapM (fun chat => decodeRecord chat now) with
            | .ok recs => recs
            | .error _ => [] := rfl
      rw [hload] at hc
      cases heq : items.mapM (fun chat => decodeRecord chat now) with
      | error e =>
        rw [heq] at hc
        exact absurd hc (List.not_mem_nil c)
      | ok recs =>
        rw [heq] at hc
        obtain ⟨a, _, hdec⟩ := mapM_except_mem _ _ _ heq c hc
        exact decodeRecord_wf _ _ _ hdec

theorem mapM_decodeRecord_encodeRecord (now : Nat) :
    ∀ cs : List SRecord, (∀ c ∈ cs, SRecordWF c) →
      (∀ c ∈ cs, SRecordDatesValid c) →
      (cs.map encodeRecord).mapM (fun v => decodeRecord v now) = .ok cs := by
  intro cs
  induction cs with
  | nil => exact fun _ _ => rfl
  | cons a as ih =>
    intro hwf hd
    rw [List.map_cons, List.mapM_cons,
        decodeRecord_encodeRecord a (hwf a (by simp)) (hd a (by simp)) now,
        ih (fun x hx => hwf x (by simp [hx])) (fun x hx => hd x (by simp [hx]))]
    rfl

/-- Claim C7 is false on the code for records decoded with an invalid date:
the decoder turns an unparsable stored date string into an Invalid Date,
`JSON.stringify` serializes an Invalid Date as `null`, and re-decoding a
non-string date yields the CURRENT time — so `decode(encode(x))` changes the
field.  Concretely: a record stored with `createdAt: "garbage"` decodes (at
time 5) to a record with an invalid `createdAt`; encoding it and re-decoding
at time 7 yields `createdAt = valid 7 ≠ invalid`. -/
theorem claim_C7_counterexample :
    ((loadChatsFromStorage (some (.arr [.obj [("createdAt", .str "garbage")]])) 5).map
        (fun c => c.createdAt)) = [DateV.invalid]
    ∧ ((loadChatsFromStorage
          (some (encodeChats
            (loadChatsFromStorage (some (.arr [.obj [("createdAt", .str "garbage")]])) 5)))
          7).map (fun c => c.createdAt)) = [DateV.valid 7] :=
  ⟨rfl, rfl⟩

/-- Claim C7, amended: for every collection that is itself the result of a
decode AND whose date fields are all definite instants (no Invalid Date —
the only way decode can produce one is an unparsable stored date string),
decoding the encoding restores the collection field-for-field, at any later
decode time. -/
theorem claim_C7_amended (raw : Option JVal) (now now2 : Nat)
    (hdates : ∀ c ∈ loadChatsFromStorage raw now, SRecordDatesValid c) :
    loadChatsFromStorage (some (encodeChats (loadChatsFromStorage raw now))) now2
      = loadChatsFromStorage raw now := by
  have hwf := loadChatsFromStorage_wf raw now
  have hmm := mapM_decodeRecord_encodeRecord now2 (loadChatsFromStorage raw now) hwf hdates
  show (match ((loadChatsFromStorage raw now).map encodeRecord).mapM
          (fun v => decodeRecord v now2) with
        | .ok recs => recs
        | .error _ => ([] : List SRecord)) = loadChatsFromStorage raw now
  rw [hmm]

/-- Witness for C7 (amended): a stored record with a parsable date string and
one message round-trips exactly. -/
theorem claim_C7_witness :
    loadChatsFromStorage
        (some (encodeChats (loadChatsFromStorage
          (some (.arr [.obj [("id", .str "c1"), ("createdAt", .str "99"),
            ("messages", .arr [.obj [("id", .str "m1"), ("type", .str "assistant"),
              ("original", .str "hi"), ("timestamp", .str "42")]])]])) 5))) 7
      = loadChatsFromStorage
          (some (.arr [.obj [("id", .str "c1"), ("createdAt", .str "99"),
            ("messages", .arr [.obj [("id", .str "m1"), ("type", .str "assistant"),
              ("original", .str "hi"), ("timestamp", .str "42")]])]])) 5 := by
  apply claim_C7_amended
  intro c hc
  have hc2 : c = decodeRecordFields
      (.obj [("id", .str "c1"), ("createdAt", .str "99"),
        ("messages", .arr [.obj [("id", .str "m1"), ("type", .str "assistant"),
          ("original", .str "hi"), ("timestamp", .str "42")]])]) 5
      [SMessage.mk "m1" .assistant "hi" none (.valid 42) none none] := by
    have : loadChatsFromStorage
        (some (.arr [.obj [("id", .str "c1"), ("createdAt", .str "99"),
          ("messages", .arr [.obj [("id", .str "m1"), ("type", .str "assistant"),
            ("original", .str "hi"), ("timestamp", .str "42")]])]])) 5
        = [decodeRecordFields
            (.obj [("id", .str "c1"), ("createdAt", .str "99"),
              ("messages", .arr [.obj [("id", .str "m1"), ("type", .str "assistant"),
                ("original", .str "hi"), ("timestamp", .str "42")]])]) 5
            [SMessage.mk "m1" .assistant "hi" none (.valid 42) none none]] := by rfl
    rw [this] at hc
    simpa using hc
  subst hc2
  refine ⟨by decide, by decide, by simp [decodeRecordFields, decodeLastSynced, jsGetD, jsObjLookup, List.find?], ?_⟩
  intro m hm
  have : m = SMessage.mk "m1" .assistant "hi" none (.valid 42) none none := by
    simpa [decodeRecordFields] using hm
  subst this
  exact fun h => by cases h

end AeroSense
